import Mathlib

/-!
Verification of the configurables layered configuration-resolution engine.

The development shallowly embeds the core of the library:

- raw configuration values (scalar string, list of strings, or None) as `Val`;
- Python dictionaries, used only through lookup, as functions
  `String → Option α` (`SDict`);
- the precedence-chain algebra of `configurables.parse`
  (ResolutionDefinition together with the Interpreter comparison operators,
  the latter fuel-indexed because the dispatch in Interpreter._coalese can
  re-enter itself);
- the command-line scanner `Cli.interpret`, fuel-indexed because its outer
  while loop does not always advance its cursor;
- the resolution engine `ConfigurationFactory.parse` of `configurables.core`,
  with type-coercion callables modelled as `Val → Except PyErr α` so that the
  exceptions they raise are explicit;
- the binding step of the `configurable` decorator.
-/

set_option autoImplicit false

namespace Configurables

/-- Raw values produced by the source interpreters: Python strings, lists of
strings (multi-valued CLI flags), or None (a CLI flag without a value). -/
inductive Val where
  | str (s : String)
  | list (l : List String)
  | null
deriving DecidableEq

/-- A Python dictionary with string keys, observed through lookup only. -/
abbrev SDict (α : Type) := String → Option α

/-- The empty dictionary. -/
def SDict.empty {α : Type} : SDict α := fun _ => none

/-- Dictionary item assignment, d[k] = v. -/
def SDict.insert {α : Type} (d : SDict α) (k : String) (v : α) : SDict α :=
  fun q => if q = k then some v else d q

/-- Python dict.update: entries of d2 overwrite entries of d1. -/
def SDict.update {α : Type} (d1 d2 : SDict α) : SDict α :=
  fun q =>
    match d2 q with
    | some v => some v
    | none => d1 q

@[simp] theorem SDict.empty_apply {α : Type} (k : String) :
    (SDict.empty : SDict α) k = none := rfl

@[simp] theorem SDict.insert_apply {α : Type} (d : SDict α) (k q : String) (v : α) :
    (d.insert k v) q = if q = k then some v else d q := rfl

theorem SDict.insert_apply_self {α : Type} (d : SDict α) (k : String) (v : α) :
    (d.insert k v) k = some v := by simp [SDict.insert]

theorem SDict.insert_apply_ne {α : Type} (d : SDict α) (k q : String) (v : α)
    (h : q ≠ k) : (d.insert k v) q = d q := by simp [SDict.insert, h]

theorem SDict.update_apply_right {α : Type} (d1 d2 : SDict α) (k : String) (v : α)
    (h : d2 k = some v) : (SDict.update d1 d2) k = some v := by
  simp [SDict.update, h]

theorem SDict.update_apply_left {α : Type} (d1 d2 : SDict α) (k : String)
    (h : d2 k = none) : (SDict.update d1 d2) k = d1 k := by
  simp [SDict.update, h]

/-- The three source-interpreter singletons of `configurables.parse`. -/
inductive Interp where
  | ENV
  | CLI
  | CFG
deriving DecidableEq

/-- The InvalidOrdering exception raised on duplicate insertion into a
resolution ordering. -/
inductive ChainErr where
  | invalidOrdering
deriving DecidableEq

/-- ResolutionDefinition.__gt__: append rhs to interpreter_order unless it is
already present, in which case InvalidOrdering is raised. -/
def rdGt (c : List Interp) (rhs : Interp) : Except ChainErr (List Interp) :=
  if rhs ∈ c then .error .invalidOrdering else .ok (c ++ [rhs])

/-- ResolutionDefinition.__lt__: insert rhs at position 0 of interpreter_order
unless it is already present, in which case InvalidOrdering is raised. -/
def rdLt (c : List Interp) (rhs : Interp) : Except ChainErr (List Interp) :=
  if rhs ∈ c then .error .invalidOrdering else .ok (rhs :: c)

/-- The right-hand operand of an Interpreter comparison: either another
interpreter or an already-built ResolutionDefinition chain. -/
inductive PyRhs where
  | interp (i : Interp)
  | chain (c : List Interp)

/-- Interpreter._coalese followed by op(lhs, rhs), fuel-indexed.

When rhs is an Interpreter, the left-hand side is wrapped as
ResolutionDefinition(self) and the operator runs on the chain: one step.
When rhs is a ResolutionDefinition, the code sets lhs = self and evaluates
op(lhs, rhs) again; Python dispatches that back to Interpreter.__gt__ (or
__lt__) on self with the same arguments, which calls _coalese again with an
unchanged state.  The fuel models Python's recursion limit; a result of
`none` at every fuel means the call never returns. -/
def coalese : Nat → Interp → PyRhs → Bool → Option (Except ChainErr (List Interp))
  | 0, _, _, _ => none
  | _ + 1, s, .interp t, isGt => some (if isGt then rdGt [s] t else rdLt [s] t)
  | n + 1, s, .chain c, isGt => coalese n s (.chain c) isGt

/-- Interpreter.__gt__ applied to another interpreter (the terminating branch
of _coalese): ResolutionDefinition(self) > rhs. -/
def interpGt (s t : Interp) : Except ChainErr (List Interp) := rdGt [s] t

/-- Interpreter.__lt__ applied to another interpreter (the terminating branch
of _coalese): ResolutionDefinition(self) < rhs. -/
def interpLt (s t : Interp) : Except ChainErr (List Interp) := rdLt [s] t

theorem coalese_interp_gt (n : Nat) (s t : Interp) :
    coalese (n + 1) s (.interp t) true = some (interpGt s t) := rfl

theorem coalese_interp_lt (n : Nat) (s t : Interp) :
    coalese (n + 1) s (.interp t) false = some (interpLt s t) := rfl

/-- ResolutionDefinition.load: run every interpreter in interpreter_order and
merge the outputs with dict.update, so later (higher-precedence) interpreters
overwrite earlier ones.  The per-interpreter outputs are abstracted as a
function from interpreters to the dictionaries their load returns. -/
def chainLoad (outputs : Interp → SDict Val) (c : List Interp) : SDict Val :=
  c.foldl (fun payload i => SDict.update payload (outputs i)) SDict.empty

theorem chainLoad_single (outputs : Interp → SDict Val) (s : Interp) (k : String) :
    chainLoad outputs [s] k = outputs s k := by
  simp only [chainLoad, List.foldl]
  cases h : outputs s k with
  | none => rw [SDict.update_apply_left _ _ _ h]; rfl
  | some v => rw [SDict.update_apply_right _ _ _ _ h]

/-- Python str.startswith for the two-character flag marker: true exactly when
the first two characters of the token are dashes. -/
def dashDash (s : String) : Bool := s.data.take 2 = ['-', '-']

/-- Python arg[2:], the flag name with the double-dash marker stripped. -/
def dropMarker (s : String) : String := ⟨s.data.drop 2⟩

/-- One pass of the inner while-loop body of Cli.interpret: fold the next
non-flag token into the current value held for key (None becomes a scalar, a
scalar becomes a two-element list, a list is appended to in place).  The key
is always bound when the loop body runs, so the missing-key branch is
unreachable from the scanner. -/
def cliAccum (acc : SDict Val) (key : String) (arg : String) : SDict Val :=
  match acc key with
  | some (.str s) => acc.insert key (.list [s, arg])
  | some (.list l) => acc.insert key (.list (l ++ [arg]))
  | some .null => acc.insert key (.str arg)
  | none => acc

/-- The inner while-loop of Cli.interpret: consume the value tokens following
a flag until the argument vector ends or another double-dash token appears.
The loop reads args[cursor] while advancing the cursor, which is the same as
walking the suffix of the argument vector that starts at the cursor; the
suffix is passed alongside so the recursion is structural.  The cursor
strictly increases, so this loop always terminates. -/
def cliValuesGo (key : String) : SDict Val → Nat → List String → SDict Val × Nat
  | acc, cursor, [] => (acc, cursor)
  | acc, cursor, arg :: rest =>
    if dashDash arg then (acc, cursor)
    else cliValuesGo key (cliAccum acc key arg) (cursor + 1) rest

/-- The inner while-loop entered with the cursor just past a flag token. -/
def cliValues (args : List String) (key : String) (acc : SDict Val) (cursor : Nat) :
    SDict Val × Nat :=
  cliValuesGo key acc cursor (args.drop cursor)

/-- The outer while-loop of Cli.interpret, fuel-indexed.  On a double-dash
token the flag name is bound to None, the inner loop consumes the following
value tokens, and scanning continues from where it stopped.  On any other
token the loop body makes no state change and the cursor is left where it was,
exactly as in the source, where the cursor is only advanced inside the
double-dash branch; `none` at every fuel means the loop never ends. -/
def cliScan (args : List String) : Nat → Nat → SDict Val → Option (SDict Val)
  | 0, _, _ => none
  | fuel + 1, cursor, acc =>
    if h : cursor < args.length then
      let arg := args.get ⟨cursor, h⟩
      if dashDash arg then
        let key := dropMarker arg
        let p := cliValues args key (acc.insert key .null) (cursor + 1)
        cliScan args fuel p.2 p.1
      else
        cliScan args fuel cursor acc
    else
      some acc

/-- Cli.interpret: scan sys.argv from index 1 with an empty accumulator. -/
def cliInterpret (fuel : Nat) (args : List String) : Option (SDict Val) :=
  cliScan args fuel 1 SDict.empty

/-- Python exceptions as seen by the resolution engine: KeyError is the one
class the parameter loop catches; every other exception is grouped as
otherError. -/
inductive PyErr where
  | keyError (msg : String)
  | otherError (msg : String)
deriving DecidableEq

/-- A type-coercion callable.  Applying it either returns a coerced value or
raises an exception; its behaviour on every raw-value shape is explicit. -/
abbrev Coercion (α : Type) := Val → Except PyErr α

/-- ConfigurationFactory._resolve_param: look the key up in the raw values
(raising KeyError when absent, as a Python dict lookup does) and apply the
parameter's type callable to it. -/
def resolveParam {α : Type} (ty : Coercion α) (key : String) (raw : SDict Val) :
    Except PyErr α :=
  match raw key with
  | some v => ty v
  | none => .error (.keyError key)

/-- ConfigurationFactory._resolve_option: the try/except covers only the
lookup, so a missing key returns the declared default without any coercion,
while a present value is passed to the option's type callable, whose
exceptions escape. -/
def resolveOption {α : Type} (ty : Coercion α) (dflt : α) (key : String)
    (raw : SDict Val) : Except PyErr α :=
  match raw key with
  | some v => ty v
  | none => .ok dflt

/-- One iteration of the parameter loop in ConfigurationFactory.parse: call
_resolve_param inside a try/except KeyError; on KeyError fall back to the
caller overrides, whose own lookup raises KeyError when the key is absent
there too.  Any non-KeyError exception escapes unchanged. -/
def paramStep {α : Type} (raw : SDict Val) (ov : SDict α) (key : String)
    (ty : Coercion α) : Except PyErr α :=
  match resolveParam ty key raw with
  | .ok v => .ok v
  | .error (.keyError _) =>
    match ov key with
    | some o => .ok o
    | none => .error (.keyError key)
  | .error e => .error e

/-- The parameter loop of ConfigurationFactory.parse, iterating the schema's
parameters in order and binding each resolved value into kwargs. -/
def parseParams {α : Type} (ps : List (String × Coercion α)) (raw : SDict Val)
    (ov : SDict α) (kw : SDict α) : Except PyErr (SDict α) :=
  match ps with
  | [] => .ok kw
  | (k, ty) :: rest =>
    match paramStep raw ov k ty with
    | .ok v => parseParams rest raw ov (kw.insert k v)
    | .error e => .error e

/-- The option loop of ConfigurationFactory.parse: each option is resolved
with _resolve_option, with no surrounding try/except. -/
def parseOptions {α : Type} (os : List (String × Coercion α × α)) (raw : SDict Val)
    (kw : SDict α) : Except PyErr (SDict α) :=
  match os with
  | [] => .ok kw
  | (k, ty, d) :: rest =>
    match resolveOption ty d k raw with
    | .ok v => parseOptions rest raw (kw.insert k v)
    | .error e => .error e

/-- The schema accumulated by a ConfigurationBuilder: required parameters and
optional parameters with defaults, each keyed by name.  The builder's dicts
are iterated in insertion order, modelled by lists of entries; the wrapped
callable is not part of resolution and is not modelled. -/
structure ConfigurationBuilder (α : Type) where
  parameters : List (String × Coercion α)
  options : List (String × Coercion α × α)

/-- ConfigurationFactory.parse: load and merge the chain, run the parameter
loop, run the option loop unless _ignore_options is set, then apply the
caller overrides last with dict.update. -/
def parse {α : Type} (b : ConfigurationBuilder α) (ordering : List Interp)
    (outputs : Interp → SDict Val) (ignoreOptions : Bool) (ov : SDict α) :
    Except PyErr (SDict α) :=
  let parsedOpts := chainLoad outputs ordering
  match parseParams b.parameters parsedOpts ov SDict.empty with
  | .error e => .error e
  | .ok kw1 =>
    match (if ignoreOptions then .ok kw1 else parseOptions b.options parsedOpts kw1) with
    | .error e => .error e
    | .ok kw2 => .ok (SDict.update kw2 ov)

/-- The bound factory produced by the configurable decorator. -/
structure ConfigurationFactory (α : Type) where
  builder : ConfigurationBuilder α
  sectionName : String
  configurationOrder : List Interp

/-- The object the configurable decorator receives: either a
ConfigurationBuilder produced by param/option decorators, or anything else
(a bare callable), which is a usage error. -/
inductive Decorated (α : Type) where
  | builder (b : ConfigurationBuilder α)
  | bare

/-- Errors raised while binding: the ValueError for an unbuilt schema, or an
InvalidOrdering escaping from the default-chain construction. -/
inductive BindErr where
  | valueError
  | ordering (e : ChainErr)
deriving DecidableEq

/-- The expression CLI > CFG > ENV as Python evaluates it: a chained
comparison, equivalent to (CLI > CFG) and (CFG > ENV).  The first comparison
runs (an exception from it would propagate) and produces a
ResolutionDefinition, which is truthy since the class defines no __bool__ or
__len__, so the value of the whole expression is the second comparison's
result: a fresh chain built from CFG and ENV alone. -/
def defaultOrder : Except ChainErr (List Interp) :=
  match interpGt .CLI .CFG with
  | .error e => .error e
  | .ok _ => interpGt .CFG .ENV

/-- The internal closure of the configurable decorator: reject anything that
is not a ConfigurationBuilder, compute the default chain CLI > CFG > ENV, and
construct the factory with the caller's ordering when one was given and the
default chain otherwise.  The section defaults to DEFAULT when absent or
falsy (the code uses config_section or "DEFAULT"). -/
def configurableBind {α : Type} (configSection : Option String)
    (order : Option (List Interp)) (obj : Decorated α) :
    Except BindErr (ConfigurationFactory α) :=
  match obj with
  | .bare => .error .valueError
  | .builder b =>
    match defaultOrder with
    | .error e => .error (.ordering e)
    | .ok dflt =>
      .ok ⟨b,
        match configSection with
        | some s => if s = "" then "DEFAULT" else s
        | none => "DEFAULT",
        order.getD dflt⟩

theorem parseParams_ok_of_steps {α : Type} (raw : SDict Val) (ov : SDict α) :
    ∀ (ps : List (String × Coercion α)),
      (∀ p ∈ ps, ∃ w, paramStep raw ov p.1 p.2 = Except.ok w) →
      ∀ kw, ∃ kw', parseParams ps raw ov kw = .ok kw' := by
  intro ps
  induction ps with
  | nil => exact fun _ kw => ⟨kw, rfl⟩
  | cons hd tl ih =>
    obtain ⟨k, ty⟩ := hd
    intro h kw
    obtain ⟨w, hw⟩ := h (k, ty) (List.mem_cons_self _ _)
    simp only [parseParams]
    rw [hw]
    exact ih (fun p hp => h p (List.mem_cons_of_mem _ hp)) _

theorem parseParams_apply_notmem {α : Type} (raw : SDict Val) (ov : SDict α)
    (k : String) :
    ∀ (ps : List (String × Coercion α)) (kw kw' : SDict α),
      k ∉ ps.map Prod.fst → parseParams ps raw ov kw = .ok kw' → kw' k = kw k := by
  intro ps
  induction ps with
  | nil =>
    intro kw kw' _ hok
    simp only [parseParams] at hok
    cases hok
    rfl
  | cons hd tl ih =>
    obtain ⟨k0, ty0⟩ := hd
    intro kw kw' hnm hok
    simp only [List.map_cons, List.mem_cons, not_or] at hnm
    simp only [parseParams] at hok
    cases hstep : paramStep raw ov k0 ty0 with
    | error e => rw [hstep] at hok; cases hok
    | ok w0 =>
      rw [hstep] at hok
      rw [ih _ _ hnm.2 hok]
      exact SDict.insert_apply_ne _ _ _ _ hnm.1

theorem parseParams_apply_mem {α : Type} (raw : SDict Val) (ov : SDict α)
    (k : String) (ty : Coercion α) :
    ∀ (ps : List (String × Coercion α)) (kw kw' : SDict α),
      (ps.map Prod.fst).Nodup → (k, ty) ∈ ps →
      parseParams ps raw ov kw = .ok kw' →
      ∃ w, paramStep raw ov k ty = .ok w ∧ kw' k = some w := by
  intro ps
  induction ps with
  | nil => intro kw kw' _ hmem; cases hmem
  | cons hd tl ih =>
    obtain ⟨k0, ty0⟩ := hd
    intro kw kw' hnd hmem hok
    simp only [List.map_cons, List.nodup_cons] at hnd
    simp only [parseParams] at hok
    cases hstep : paramStep raw ov k0 ty0 with
    | error e => rw [hstep] at hok; cases hok
    | ok w0 =>
      rw [hstep] at hok
      rcases List.mem_cons.mp hmem with heq | htl
      · obtain ⟨hk, hty⟩ := Prod.mk.injEq .. ▸ heq
        subst hk
        subst hty
        refine ⟨w0, hstep, ?_⟩
        rw [parseParams_apply_notmem raw ov k tl _ _ hnd.1 hok]
        exact SDict.insert_apply_self _ _ _
      · exact ih _ _ hnd.2 htl hok

theorem parseParams_error_of_mem {α : Type} (raw : SDict Val) (ov : SDict α)
    (k : String) (ty : Coercion α) (e : PyErr) :
    ∀ (ps : List (String × Coercion α)),
      (ps.map Prod.fst).Nodup → (k, ty) ∈ ps →
      paramStep raw ov k ty = .error e →
      (∀ p ∈ ps, p.1 ≠ k → ∃ w, paramStep raw ov p.1 p.2 = Except.ok w) →
      ∀ kw, parseParams ps raw ov kw = .error e := by
  intro ps
  induction ps with
  | nil => intro _ hmem; cases hmem
  | cons hd tl ih =>
    obtain ⟨k0, ty0⟩ := hd
    intro hnd hmem hstep hrest kw
    simp only [List.map_cons, List.nodup_cons] at hnd
    rcases List.mem_cons.mp hmem with heq | htl
    · obtain ⟨hk, hty⟩ := Prod.mk.injEq .. ▸ heq
      subst hk
      subst hty
      simp only [parseParams]
      rw [hstep]
    · have hk0 : k0 ≠ k := fun hc =>
        hnd.1 (List.mem_map.mpr ⟨(k, ty), htl, hc.symm⟩)
      obtain ⟨w0, hw0⟩ := hrest (k0, ty0) (List.mem_cons_self _ _) hk0
      simp only [parseParams]
      rw [hw0]
      exact ih hnd.2 htl hstep (fun p hp => hrest p (List.mem_cons_of_mem _ hp)) _

theorem parseParams_ne_ok_of_error {α : Type} (raw : SDict Val) (ov : SDict α)
    (k : String) (ty : Coercion α) (e : PyErr) :
    ∀ (ps : List (String × Coercion α)),
      (k, ty) ∈ ps → paramStep raw ov k ty = .error e →
      ∀ kw kw', parseParams ps raw ov kw ≠ .ok kw' := by
  intro ps
  induction ps with
  | nil => intro hmem; cases hmem
  | cons hd tl ih =>
    obtain ⟨k0, ty0⟩ := hd
    intro hmem hstep kw kw' hok
    simp only [parseParams] at hok
    rcases List.mem_cons.mp hmem with heq | htl
    · obtain ⟨hk, hty⟩ := Prod.mk.injEq .. ▸ heq
      subst hk
      subst hty
      rw [hstep] at hok
      cases hok
    · cases hstep0 : paramStep raw ov k0 ty0 with
      | error e0 => rw [hstep0] at hok; cases hok
      | ok w0 =>
        rw [hstep0] at hok
        exact ih htl hstep _ _ hok

theorem parseOptions_ok_of_steps {α : Type} (raw : SDict Val) :
    ∀ (os : List (String × Coercion α × α)),
      (∀ o ∈ os, ∃ w, resolveOption o.2.1 o.2.2 o.1 raw = Except.ok w) →
      ∀ kw, ∃ kw', parseOptions os raw kw = .ok kw' := by
  intro os
  induction os with
  | nil => exact fun _ kw => ⟨kw, rfl⟩
  | cons hd tl ih =>
    obtain ⟨k, ty, d⟩ := hd
    intro h kw
    obtain ⟨w, hw⟩ := h (k, ty, d) (List.mem_cons_self _ _)
    simp only [parseOptions]
    rw [hw]
    exact ih (fun o ho => h o (List.mem_cons_of_mem _ ho)) _

theorem parseOptions_apply_notmem {α : Type} (raw : SDict Val) (k : String) :
    ∀ (os : List (String × Coercion α × α)) (kw kw' : SDict α),
      k ∉ os.map Prod.fst → parseOptions os raw kw = .ok kw' → kw' k = kw k := by
  intro os
  induction os with
  | nil =>
    intro kw kw' _ hok
    simp only [parseOptions] at hok
    cases hok
    rfl
  | cons hd tl ih =>
    obtain ⟨k0, ty0, d0⟩ := hd
    intro kw kw' hnm hok
    simp only [List.map_cons, List.mem_cons, not_or] at hnm
    simp only [parseOptions] at hok
    cases hstep : resolveOption ty0 d0 k0 raw with
    | error e => rw [hstep] at hok; cases hok
    | ok w0 =>
      rw [hstep] at hok
      rw [ih _ _ hnm.2 hok]
      exact SDict.insert_apply_ne _ _ _ _ hnm.1

theorem parseOptions_apply_mem {α : Type} (raw : SDict Val) (k : String)
    (ty : Coercion α) (d : α) :
    ∀ (os : List (String × Coercion α × α)) (kw kw' : SDict α),
      (os.map Prod.fst).Nodup → (k, ty, d) ∈ os →
      parseOptions os raw kw = .ok kw' →
      ∃ w, resolveOption ty d k raw = .ok w ∧ kw' k = some w := by
  intro os
  induction os with
  | nil => intro kw kw' _ hmem; cases hmem
  | cons hd tl ih =>
    obtain ⟨k0, ty0, d0⟩ := hd
    intro kw kw' hnd hmem hok
    simp only [List.map_cons, List.nodup_cons] at hnd
    simp only [parseOptions] at hok
    cases hstep : resolveOption ty0 d0 k0 raw with
    | error e => rw [hstep] at hok; cases hok
    | ok w0 =>
      rw [hstep] at hok
      rcases List.mem_cons.mp hmem with heq | htl
      · obtain ⟨hk, hrest⟩ := Prod.mk.injEq .. ▸ heq
        obtain ⟨hty, hd'⟩ := Prod.mk.injEq .. ▸ hrest
        subst hk
        subst hty
        subst hd'
        refine ⟨w0, hstep, ?_⟩
        rw [parseOptions_apply_notmem raw k tl _ _ hnd.1 hok]
        exact SDict.insert_apply_self _ _ _
      · exact ih _ _ hnd.2 htl hok

theorem parseOptions_error_of_mem {α : Type} (raw : SDict Val) (k : String)
    (ty : Coercion α) (d : α) (e : PyErr) :
    ∀ (os : List (String × Coercion α × α)),
      (os.map Prod.fst).Nodup → (k, ty, d) ∈ os →
      resolveOption ty d k raw = .error e →
      (∀ o ∈ os, o.1 ≠ k → ∃ w, resolveOption o.2.1 o.2.2 o.1 raw = Except.ok w) →
      ∀ kw, parseOptions os raw kw = .error e := by
  intro os
  induction os with
  | nil => intro _ hmem; cases hmem
  | cons hd tl ih =>
    obtain ⟨k0, ty0, d0⟩ := hd
    intro hnd hmem hstep hrest kw
    simp only [List.map_cons, List.nodup_cons] at hnd
    rcases List.mem_cons.mp hmem with heq | htl
    · obtain ⟨hk, hrest'⟩ := Prod.mk.injEq .. ▸ heq
      obtain ⟨hty, hd'⟩ := Prod.mk.injEq .. ▸ hrest'
      subst hk
      subst hty
      subst hd'
      simp only [parseOptions]
      rw [hstep]
    · have hk0 : k0 ≠ k := fun hc =>
        hnd.1 (List.mem_map.mpr ⟨(k, ty, d), htl, hc.symm⟩)
      obtain ⟨w0, hw0⟩ := hrest (k0, ty0, d0) (List.mem_cons_self _ _) hk0
      simp only [parseOptions]
      rw [hw0]
      exact ih hnd.2 htl hstep (fun o ho => hrest o (List.mem_cons_of_mem _ ho)) _

theorem parse_ok_elim {α : Type} (b : ConfigurationBuilder α) (ordering : List Interp)
    (outputs : Interp → SDict Val) (ig : Bool) (ov : SDict α) (kw : SDict α)
    (h : parse b ordering outputs ig ov = .ok kw) :
    ∃ kw1 kw2,
      parseParams b.parameters (chainLoad outputs ordering) ov SDict.empty = .ok kw1 ∧
      (if ig then Except.ok kw1
        else parseOptions b.options (chainLoad outputs ordering) kw1) = .ok kw2 ∧
      kw = SDict.update kw2 ov := by
  simp only [parse] at h
  split at h
  · cases h
  · rename_i kw1 h1
    split at h
    · cases h
    · rename_i kw2 h2
      cases h
      exact ⟨kw1, kw2, h1, h2, rfl⟩

theorem nodup_key_unique {β : Type} :
    ∀ (l : List (String × β)), (l.map Prod.fst).Nodup →
      ∀ {k : String} {a b : β}, (k, a) ∈ l → (k, b) ∈ l → a = b := by
  intro l
  induction l with
  | nil => intro _ k a b ha; cases ha
  | cons hd tl ih =>
    obtain ⟨k0, v0⟩ := hd
    intro hnd k a b ha hb
    simp only [List.map_cons, List.nodup_cons] at hnd
    rcases List.mem_cons.mp ha with hea | hta
    · obtain ⟨hk, hv⟩ := Prod.mk.injEq .. ▸ hea
      rcases List.mem_cons.mp hb with heb | htb
      · obtain ⟨_, hv'⟩ := Prod.mk.injEq .. ▸ heb
        rw [hv, hv']
      · exact absurd (List.mem_map.mpr ⟨(k, b), htb, hk⟩) hnd.1
    · rcases List.mem_cons.mp hb with heb | htb
      · obtain ⟨hk, _⟩ := Prod.mk.injEq .. ▸ heb
        exact absurd (List.mem_map.mpr ⟨(k, a), hta, hk⟩) hnd.1
      · exact ih hnd.2 hta htb

/-- C1: for a chain built as A > B (so B is loaded last and has the higher
precedence in the merge direction of ResolutionDefinition.load), any key
present in both interpreters' outputs is mapped by the chain's load to B's
value, whatever the shape of either value (scalar, list, or None). -/
theorem chain_gt_merge_right_bias (outputs : Interp → SDict Val) (A B : Interp)
    (ch : List Interp) (hch : interpGt A B = .ok ch) (k : String) (va vb : Val)
    (ha : outputs A k = some va) (hb : outputs B k = some vb) :
    chainLoad outputs ch k = some vb := by
  unfold interpGt rdGt at hch
  by_cases hmem : B ∈ [A]
  · rw [if_pos hmem] at hch; cases hch
  · rw [if_neg hmem] at hch
    obtain rfl : [A] ++ [B] = ch := by injection hch
    simp only [chainLoad, List.cons_append, List.nil_append, List.foldl]
    exact SDict.update_apply_right _ _ _ _ hb

/-- Outputs for the C1 witness: the key "k" carries a scalar in ENV and a
None (flag-without-value) in CFG, exercising the null value shape. -/
def w1outputs : Interp → SDict Val
  | .ENV => fun k => if k = "k" then some (.str "lo") else none
  | .CFG => fun k => if k = "k" then some .null else none
  | .CLI => fun _ => none

theorem chain_gt_merge_right_bias_witness :
    interpGt Interp.ENV Interp.CFG = .ok [Interp.ENV, Interp.CFG] ∧
    w1outputs Interp.ENV "k" = some (.str "lo") ∧
    w1outputs Interp.CFG "k" = some .null ∧
    chainLoad w1outputs [Interp.ENV, Interp.CFG] "k" = some .null :=
  ⟨rfl, rfl, rfl,
    chain_gt_merge_right_bias w1outputs .ENV .CFG [.ENV, .CFG] rfl "k"
      (.str "lo") .null rfl rfl⟩

/-- C2: extending an ordering chain with an interpreter that is already in the
chain raises InvalidOrdering through both comparison directions, and when the
interpreter is new the chain is extended with it, never deduplicated. -/
theorem duplicate_insertion_raises_invalid_ordering (c : List Interp) (i : Interp) :
    (i ∈ c → rdGt c i = .error .invalidOrdering ∧ rdLt c i = .error .invalidOrdering) ∧
    (i ∉ c → rdGt c i = .ok (c ++ [i]) ∧ rdLt c i = .ok (i :: c)) := by
  refine ⟨fun h => ⟨?_, ?_⟩, fun h => ⟨?_, ?_⟩⟩
  · simp [rdGt, h]
  · simp [rdLt, h]
  · simp [rdGt, h]
  · simp [rdLt, h]

theorem duplicate_insertion_raises_invalid_ordering_witness :
    (Interp.ENV ∈ [Interp.ENV] ∧
      rdGt [Interp.ENV] Interp.ENV = .error .invalidOrdering) ∧
    (Interp.ENV ∈ [Interp.ENV] ∧
      rdLt [Interp.ENV] Interp.ENV = .error .invalidOrdering) ∧
    (Interp.ENV ∈ [Interp.ENV, Interp.CFG] ∧
      rdGt [Interp.ENV, Interp.CFG] Interp.ENV = .error .invalidOrdering) :=
  ⟨⟨by decide,
    ((duplicate_insertion_raises_invalid_ordering [Interp.ENV] Interp.ENV).1
      (by decide)).1⟩,
   ⟨by decide,
    ((duplicate_insertion_raises_invalid_ordering [Interp.ENV] Interp.ENV).1
      (by decide)).2⟩,
   ⟨by decide,
    ((duplicate_insertion_raises_invalid_ordering
        [Interp.ENV, Interp.CFG] Interp.ENV).1 (by decide)).1⟩⟩

/-- C5: the claim says a binding with no caller-specified ordering gets the
default chain CommandLine > ConfigFile > Environment, but the source builds
default_order with the chained comparison CLI > CFG > ENV, which Python
evaluates as (CLI > CFG) and (CFG > ENV): the truthy first chain is
discarded and the factory receives the fresh chain built from CFG and ENV
alone, with CommandLine silently dropped — contradicting the decorator's
docstring and the inline comment, which both announce CLI > CFG > ENV. -/
theorem default_chain_drops_cli {α : Type} (b : ConfigurationBuilder α)
    (configSection : Option String) :
    (configurableBind configSection none (Decorated.builder b)).map
      ConfigurationFactory.configurationOrder
      = .ok [Interp.CFG, Interp.ENV] ∧
    Interp.CLI ∉ [Interp.CFG, Interp.ENV] := ⟨rfl, by decide⟩

/-- C6: the claim describes the scan for every argument vector, but the outer
loop of Cli.interpret only advances the cursor inside the double-dash branch,
so any token at index 1 that does not begin with a double dash is examined
forever: load never returns, at any recursion budget.  On vectors whose
scanned tokens all belong to flags the scan does return the described
mapping: for argv tokens --a 1 2 --b it yields a bound to the list and b
bound to None. -/
theorem cli_scan_hangs_on_leading_positional :
    (∀ fuel : Nat, cliInterpret fuel ["prog", "x", "--a"] = none) ∧
    (cliInterpret 10 ["prog", "--a", "1", "2", "--b"]).map (fun kw => (kw "a", kw "b"))
      = some (some (.list ["1", "2"]), some .null) := by
  constructor
  · have key : ∀ (fuel : Nat) (acc : SDict Val),
        cliScan ["prog", "x", "--a"] fuel 1 acc = none := by
      intro fuel
      induction fuel with
      | zero => intro acc; rfl
      | succ n ih => intro acc; exact ih acc
    exact fun fuel => key fuel _
  · rfl

/-- C10: combining a single interpreter on the left with an existing chain on
the right never terminates, whichever comparison is used: the chain branch of
Interpreter._coalese re-dispatches op(self, rhs) to the very same comparison
method with unchanged arguments, so no recursion budget suffices. -/
theorem interp_chain_coalese_diverges :
    ∀ (fuel : Nat) (s : Interp) (c : List Interp) (isGt : Bool),
      coalese fuel s (.chain c) isGt = none := by
  intro fuel
  induction fuel with
  | zero => intro s c isGt; rfl
  | succ n ih => intro s c isGt; exact ih s c isGt

/-- C3: for a declared required parameter (not also declared as an option and
not overridden), a raw value present in the merged chain output is bound after
coercion by the parameter's type callable; a name absent from the merged
output but present in the caller overrides is bound to the override; a name
absent from both leaves resolution with a KeyError from the parameter step,
and parse never returns a mapping. -/
theorem required_param_resolution {α : Type} (b : ConfigurationBuilder α)
    (ordering : List Interp) (outputs : Interp → SDict Val) (ig : Bool)
    (ov : SDict α) (k : String) (ty : Coercion α)
    (hnd : (b.parameters.map Prod.fst).Nodup)
    (hmem : (k, ty) ∈ b.parameters)
    (hnoopt : k ∉ b.options.map Prod.fst) :
    (∀ v w, chainLoad outputs ordering k = some v → ty v = .ok w → ov k = none →
      ∀ kw, parse b ordering outputs ig ov = .ok kw → kw k = some w) ∧
    (∀ o, chainLoad outputs ordering k = none → ov k = some o →
      ∀ kw, parse b ordering outputs ig ov = .ok kw → kw k = some o) ∧
    (chainLoad outputs ordering k = none → ov k = none →
      paramStep (chainLoad outputs ordering) ov k ty = .error (.keyError k) ∧
      ∀ kw, parse b ordering outputs ig ov ≠ .ok kw) := by
  refine ⟨?_, ?_, ?_⟩
  · intro v w hraw hty hov kw hok
    obtain ⟨kw1, kw2, h1, h2, rfl⟩ := parse_ok_elim b ordering outputs ig ov kw hok
    have hstep : paramStep (chainLoad outputs ordering) ov k ty = .ok w := by
      simp only [paramStep, resolveParam, hraw, hty]
    obtain ⟨w', hw', hkw1⟩ :=
      parseParams_apply_mem (chainLoad outputs ordering) ov k ty b.parameters
        SDict.empty kw1 hnd hmem h1
    rw [hstep] at hw'
    obtain rfl : w = w' := by injection hw'
    have hkw2 : kw2 k = some w := by
      cases ig with
      | true =>
        simp only [if_pos] at h2
        obtain rfl : kw1 = kw2 := by injection h2
        exact hkw1
      | false =>
        simp only [Bool.false_eq_true, if_neg] at h2
        rw [parseOptions_apply_notmem (chainLoad outputs ordering) k b.options
          kw1 kw2 hnoopt h2]
        exact hkw1
    rw [SDict.update_apply_left _ _ _ hov]
    exact hkw2
  · intro o _ hovo kw hok
    obtain ⟨kw1, kw2, _, _, rfl⟩ := parse_ok_elim b ordering outputs ig ov kw hok
    exact SDict.update_apply_right _ _ _ _ hovo
  · intro hraw hovn
    have hstep : paramStep (chainLoad outputs ordering) ov k ty
        = .error (.keyError k) := by
      simp only [paramStep, resolveParam, hraw, hovn]
    refine ⟨hstep, fun kw hok => ?_⟩
    obtain ⟨kw1, _, h1, _, _⟩ := parse_ok_elim b ordering outputs ig ov kw hok
    exact parseParams_ne_ok_of_error (chainLoad outputs ordering) ov k ty
      (.keyError k) b.parameters hmem hstep _ _ h1

/-- Coercion used by the C3 witness: the length of a scalar string. -/
def w3ty : Coercion Nat := fun v =>
  match v with
  | .str s => .ok s.data.length
  | _ => .error (.otherError "not a scalar")

/-- Schema for the C3 witness: one required parameter named x. -/
def w3b : ConfigurationBuilder Nat := ⟨[("x", w3ty)], []⟩

/-- Chain outputs for the C3 witness: every source is empty. -/
def w3outputs : Interp → SDict Val := fun _ => SDict.empty

theorem required_param_resolution_witness :
    paramStep (chainLoad w3outputs []) SDict.empty "x" w3ty
      = .error (.keyError "x") ∧
    parse w3b [] w3outputs false SDict.empty ≠ .ok SDict.empty :=
  ⟨((required_param_resolution w3b [] w3outputs false SDict.empty "x" w3ty
      (by simp [w3b]) (by simp [w3b]) (by simp [w3b])).2.2 rfl rfl).1,
   ((required_param_resolution w3b [] w3outputs false SDict.empty "x" w3ty
      (by simp [w3b]) (by simp [w3b]) (by simp [w3b])).2.2 rfl rfl).2 SDict.empty⟩

/-- C4: whenever parse returns a mapping, every key of the caller overrides is
bound to exactly the override value, whether or not the key is declared in the
schema, because the overrides are applied last with dict.update. -/
theorem caller_overrides_always_win {α : Type} (b : ConfigurationBuilder α)
    (ordering : List Interp) (outputs : Interp → SDict Val) (ig : Bool)
    (ov : SDict α) (k : String) (v : α) (hov : ov k = some v) :
    ∀ kw, parse b ordering outputs ig ov = .ok kw → kw k = some v := by
  intro kw hok
  obtain ⟨kw1, kw2, _, _, rfl⟩ := parse_ok_elim b ordering outputs ig ov kw hok
  exact SDict.update_apply_right _ _ _ _ hov

/-- Overrides for the C4 witness: the key extra is not declared anywhere in
the (empty) schema and still passes through. -/
def w4ov : SDict Nat := fun k => if k = "extra" then some 5 else none

theorem caller_overrides_always_win_witness :
    w4ov "extra" = some 5 ∧
    SDict.update SDict.empty w4ov "extra" = some 5 :=
  ⟨rfl,
    caller_overrides_always_win ⟨[], []⟩ [] (fun _ => SDict.empty) false w4ov
      "extra" 5 rfl (SDict.update SDict.empty w4ov) rfl⟩

/-- C7: with ignoreOptions unset and no caller override for the name, an
option absent from the merged output is bound to its declared default exactly
as given, the type callable never touching it, while a present raw value is
bound to the coercion of that value. -/
theorem option_default_verbatim {α : Type} (b : ConfigurationBuilder α)
    (ordering : List Interp) (outputs : Interp → SDict Val) (ov : SDict α)
    (k : String) (ty : Coercion α) (dflt : α)
    (hnd : (b.options.map Prod.fst).Nodup)
    (hmem : (k, ty, dflt) ∈ b.options)
    (hov : ov k = none) :
    (chainLoad outputs ordering k = none →
      ∀ kw, parse b ordering outputs false ov = .ok kw → kw k = some dflt) ∧
    (∀ v w, chainLoad outputs ordering k = some v → ty v = .ok w →
      ∀ kw, parse b ordering outputs false ov = .ok kw → kw k = some w) := by
  constructor
  · intro hraw kw hok
    obtain ⟨kw1, kw2, _, h2, rfl⟩ := parse_ok_elim b ordering outputs false ov kw hok
    simp only [Bool.false_eq_true, if_neg] at h2
    obtain ⟨w, hw, hkw2⟩ :=
      parseOptions_apply_mem (chainLoad outputs ordering) k ty dflt b.options
        kw1 kw2 hnd hmem h2
    have : resolveOption ty dflt k (chainLoad outputs ordering) = .ok dflt := by
      simp only [resolveOption, hraw]
    rw [this] at hw
    obtain rfl : dflt = w := by injection hw
    rw [SDict.update_apply_left _ _ _ hov]
    exact hkw2
  · intro v w hraw hty kw hok
    obtain ⟨kw1, kw2, _, h2, rfl⟩ := parse_ok_elim b ordering outputs false ov kw hok
    simp only [Bool.false_eq_true, if_neg] at h2
    obtain ⟨w', hw', hkw2⟩ :=
      parseOptions_apply_mem (chainLoad outputs ordering) k ty dflt b.options
        kw1 kw2 hnd hmem h2
    have : resolveOption ty dflt k (chainLoad outputs ordering) = .ok w := by
      simp only [resolveOption, hraw, hty]
    rw [this] at hw'
    obtain rfl : w = w' := by injection hw'
    rw [SDict.update_apply_left _ _ _ hov]
    exact hkw2

/-- Schema for the C7 witness: one option p of default 42, whose coercion
never returns 42, so an applied coercion could not produce the default. -/
def w7b : ConfigurationBuilder Nat := ⟨[], [("p", w3ty, 42)]⟩

theorem option_default_verbatim_witness :
    SDict.update (SDict.insert SDict.empty "p" 42) SDict.empty "p" = some 42 :=
  (option_default_verbatim w7b [] (fun _ => SDict.empty) SDict.empty "p" w3ty 42
      (by simp [w7b]) (by simp [w7b]) rfl).1 rfl
    (SDict.update (SDict.insert SDict.empty "p" 42) SDict.empty) rfl

/-- C8: a configuration supplied through exactly one source round-trips: with
every schema field present in that source's output and every coercion
accepting its value, resolving through the one-element chain succeeds and
binds each field to its type callable applied to the original value. -/
theorem single_source_round_trip {α : Type} (s : Interp)
    (outputs : Interp → SDict Val) (b : ConfigurationBuilder α)
    (hnp : (b.parameters.map Prod.fst).Nodup)
    (hno : (b.options.map Prod.fst).Nodup)
    (hdisj : ∀ k, k ∈ b.parameters.map Prod.fst → k ∉ b.options.map Prod.fst)
    (hp : ∀ p ∈ b.parameters, ∃ v w, outputs s p.1 = some v ∧ p.2 v = Except.ok w)
    (ho : ∀ o ∈ b.options, ∃ v w, outputs s o.1 = some v ∧ o.2.1 v = Except.ok w) :
    ∃ kw, parse b [s] outputs false SDict.empty = .ok kw ∧
      (∀ p ∈ b.parameters, ∀ v w, outputs s p.1 = some v → p.2 v = .ok w →
        kw p.1 = some w) ∧
      (∀ o ∈ b.options, ∀ v w, outputs s o.1 = some v → o.2.1 v = .ok w →
        kw o.1 = some w) := by
  have hrawe : ∀ q, chainLoad outputs [s] q = outputs s q := chainLoad_single outputs s
  have hpsteps : ∀ p ∈ b.parameters,
      ∃ w, paramStep (chainLoad outputs [s]) SDict.empty p.1 p.2 = Except.ok w := by
    intro p hpm
    obtain ⟨v, w, hv, hw⟩ := hp p hpm
    refine ⟨w, ?_⟩
    simp only [paramStep, resolveParam, hrawe, hv, hw]
  have hosteps : ∀ o ∈ b.options,
      ∃ w, resolveOption o.2.1 o.2.2 o.1 (chainLoad outputs [s]) = Except.ok w := by
    intro o hom
    obtain ⟨v, w, hv, hw⟩ := ho o hom
    refine ⟨w, ?_⟩
    simp only [resolveOption, hrawe, hv, hw]
  obtain ⟨kw1, h1⟩ :=
    parseParams_ok_of_steps (chainLoad outputs [s]) SDict.empty b.parameters
      hpsteps SDict.empty
  obtain ⟨kw2, h2⟩ :=
    parseOptions_ok_of_steps (chainLoad outputs [s]) b.options hosteps kw1
  have hparse : parse b [s] outputs false SDict.empty
      = .ok (SDict.update kw2 SDict.empty) := by
    simp only [parse, h1, Bool.false_eq_true, if_false, h2]
  refine ⟨SDict.update kw2 SDict.empty, hparse, ?_, ?_⟩
  · intro p hpm v w hv hw
    obtain ⟨k, ty⟩ := p
    have hv' : outputs s k = some v := hv
    have hw' : ty v = Except.ok w := hw
    have hstep : paramStep (chainLoad outputs [s]) SDict.empty k ty = .ok w := by
      simp only [paramStep, resolveParam, hrawe, hv', hw']
    obtain ⟨w1, hw1, hkw1⟩ :=
      parseParams_apply_mem (chainLoad outputs [s]) SDict.empty k ty b.parameters
        SDict.empty kw1 hnp hpm h1
    rw [hstep] at hw1
    obtain rfl : w = w1 := by injection hw1
    have hnotopt : k ∉ b.options.map Prod.fst :=
      hdisj k (List.mem_map.mpr ⟨(k, ty), hpm, rfl⟩)
    rw [SDict.update_apply_left _ _ _ rfl,
      parseOptions_apply_notmem (chainLoad outputs [s]) k b.options kw1 kw2
        hnotopt h2]
    exact hkw1
  · intro o hom v w hv hw
    obtain ⟨k, ty, d⟩ := o
    have hv' : outputs s k = some v := hv
    have hw' : ty v = Except.ok w := hw
    have hstep : resolveOption ty d k (chainLoad outputs [s]) = .ok w := by
      simp only [resolveOption, hrawe, hv', hw']
    obtain ⟨w1, hw1, hkw2⟩ :=
      parseOptions_apply_mem (chainLoad outputs [s]) k ty d b.options kw1 kw2
        hno hom h2
    rw [hstep] at hw1
    obtain rfl : w = w1 := by injection hw1
    rw [SDict.update_apply_left _ _ _ rfl]
    exact hkw2

/-- Schema for the C8 witness: required parameter h and option p, both coerced
to the length of the scalar string they receive. -/
def w8b : ConfigurationBuilder Nat := ⟨[("h", w3ty)], [("p", w3ty, 0)]⟩

/-- The single-source configuration for the C8 witness, supplied via CFG. -/
def w8outputs : Interp → SDict Val
  | .CFG => fun k =>
    if k = "h" then some (.str "xy")
    else if k = "p" then some (.str "abc") else none
  | _ => fun _ => none

/-- The concrete mapping C8's resolution produces on the witness inputs. -/
def w8kw : SDict Nat :=
  SDict.update (SDict.insert (SDict.insert SDict.empty "h" 2) "p" 3) SDict.empty

theorem single_source_round_trip_witness : w8kw "h" = some 2 ∧ w8kw "p" = some 3 := by
  obtain ⟨kw, hok, hparam, hopt⟩ :=
    single_source_round_trip Interp.CFG w8outputs w8b (by simp [w8b])
      (by simp [w8b]) (by simp [w8b])
      (by
        intro p hpm
        simp only [w8b, List.mem_singleton] at hpm
        subst hpm
        exact ⟨.str "xy", 2, rfl, rfl⟩)
      (by
        intro o hom
        simp only [w8b, List.mem_singleton] at hom
        subst hom
        exact ⟨.str "abc", 3, rfl, rfl⟩)
  have hkw : kw = w8kw := by
    have heq : (Except.ok w8kw : Except PyErr (SDict Nat)) = .ok kw := by
      rw [← hok]; rfl
    injection heq with heq'
    exact heq'.symm
  subst hkw
  exact ⟨hparam ("h", w3ty) (by simp [w8b]) (.str "xy") 2 rfl rfl,
    hopt ("p", w3ty, 0) (by simp [w8b]) (.str "abc") 3 rfl rfl⟩

/-- Coercion for the C9 counterexample: raises KeyError on every input. -/
def w9ty : Coercion Nat := fun _ => .error (.keyError "boom")

/-- Schema for the C9 counterexample: one required parameter x. -/
def w9b : ConfigurationBuilder Nat := ⟨[("x", w9ty)], []⟩

/-- Chain outputs for C9: ENV supplies a raw value for x. -/
def w9outputs : Interp → SDict Val
  | .ENV => fun k => if k = "x" then some (.str "1") else none
  | _ => fun _ => none

/-- Caller overrides for the C9 counterexample. -/
def w9ov : SDict Nat := fun k => if k = "x" then some 7 else none

/-- C9 counterexample: the raw value for x is present in the merged output and
the parameter's type callable raises a KeyError on it, yet parse returns a
mapping binding x to the caller override: the exception was suppressed and
replaced by a fallback value, so the propagation claim fails as stated. -/
theorem param_coercion_keyerror_suppressed_cex :
    chainLoad w9outputs [Interp.ENV] "x" = some (.str "1") ∧
    w9ty (.str "1") = .error (.keyError "boom") ∧
    (parse w9b [Interp.ENV] w9outputs false w9ov).map (fun kw => kw "x")
      = .ok (some 7) := ⟨rfl, rfl, rfl⟩

/-- C9 amended: a coercion exception on a present raw value propagates to the
caller exactly as raised, except that a KeyError raised by a required
parameter's type callable is caught by the parameter loop and replaced by the
caller-override fallback for that name.  Non-KeyError exceptions from
parameters and every exception from an option's type callable propagate
unchanged (with the other fields resolving normally). -/
theorem type_error_propagation {α : Type} (b : ConfigurationBuilder α)
    (ordering : List Interp) (outputs : Interp → SDict Val) (ov : SDict α)
    (k : String) (v : Val)
    (hraw : chainLoad outputs ordering k = some v) :
    (∀ ty m, (b.parameters.map Prod.fst).Nodup → (k, ty) ∈ b.parameters →
      ty v = .error (.otherError m) →
      (∀ p ∈ b.parameters, p.1 ≠ k →
        ∃ w, paramStep (chainLoad outputs ordering) ov p.1 p.2 = Except.ok w) →
      ∀ ig, parse b ordering outputs ig ov = .error (.otherError m)) ∧
    (∀ ty d e, (b.options.map Prod.fst).Nodup → (k, ty, d) ∈ b.options →
      ty v = .error e →
      (∀ p ∈ b.parameters,
        ∃ w, paramStep (chainLoad outputs ordering) ov p.1 p.2 = Except.ok w) →
      (∀ o ∈ b.options, o.1 ≠ k →
        ∃ w, resolveOption o.2.1 o.2.2 o.1 (chainLoad outputs ordering)
          = Except.ok w) →
      parse b ordering outputs false ov = .error e) ∧
    (∀ ty m o, (b.parameters.map Prod.fst).Nodup → (k, ty) ∈ b.parameters →
      ty v = .error (.keyError m) → ov k = some o →
      (∀ p ∈ b.parameters, p.1 ≠ k →
        ∃ w, paramStep (chainLoad outputs ordering) ov p.1 p.2 = Except.ok w) →
      (∀ oo ∈ b.options,
        ∃ w, resolveOption oo.2.1 oo.2.2 oo.1 (chainLoad outputs ordering)
          = Except.ok w) →
      ∃ kw, parse b ordering outputs false ov = .ok kw ∧ kw k = some o) := by
  refine ⟨?_, ?_, ?_⟩
  · intro ty m hnd hmem hty hrest ig
    have hstep : paramStep (chainLoad outputs ordering) ov k ty
        = .error (.otherError m) := by
      simp only [paramStep, resolveParam, hraw, hty]
    have hPP := parseParams_error_of_mem (chainLoad outputs ordering) ov k ty
      (.otherError m) b.parameters hnd hmem hstep hrest SDict.empty
    simp only [parse, hPP]
  · intro ty d e hno hmem hty hps hrest
    obtain ⟨kw1, h1⟩ :=
      parseParams_ok_of_steps (chainLoad outputs ordering) ov b.parameters hps
        SDict.empty
    have hstep : resolveOption ty d k (chainLoad outputs ordering) = .error e := by
      simp only [resolveOption, hraw, hty]
    have hPO := parseOptions_error_of_mem (chainLoad outputs ordering) k ty d e
      b.options hno hmem hstep hrest kw1
    simp only [parse, h1, Bool.false_eq_true, if_false, hPO]
  · intro ty m o hnd hmem hty hov hrest hosteps
    have hstep : paramStep (chainLoad outputs ordering) ov k ty = .ok o := by
      simp only [paramStep, resolveParam, hraw, hty, hov]
    have hps : ∀ p ∈ b.parameters,
        ∃ w, paramStep (chainLoad outputs ordering) ov p.1 p.2 = Except.ok w := by
      intro p hpm
      by_cases hpk : p.1 = k
      · obtain ⟨q, tyq⟩ := p
        obtain rfl : q = k := hpk
        obtain rfl : tyq = ty := nodup_key_unique b.parameters hnd hpm hmem
        exact ⟨o, hstep⟩
      · exact hrest p hpm hpk
    obtain ⟨kw1, h1⟩ :=
      parseParams_ok_of_steps (chainLoad outputs ordering) ov b.parameters hps
        SDict.empty
    obtain ⟨kw2, h2⟩ :=
      parseOptions_ok_of_steps (chainLoad outputs ordering) b.options hosteps kw1
    refine ⟨SDict.update kw2 ov, ?_, SDict.update_apply_right _ _ _ _ hov⟩
    simp only [parse, h1, Bool.false_eq_true, if_false, h2]

/-- Coercion for the C9 amended witness: raises a non-KeyError exception. -/
def w9aty : Coercion Nat := fun _ => .error (.otherError "bad")

/-- Schema for the C9 amended witness. -/
def w9ab : ConfigurationBuilder Nat := ⟨[("x", w9aty)], []⟩

theorem type_error_propagation_witness :
    parse w9ab [Interp.ENV] w9outputs false SDict.empty
      = .error (.otherError "bad") :=
  (type_error_propagation w9ab [Interp.ENV] w9outputs SDict.empty "x"
      (.str "1") rfl).1 w9aty "bad" (by simp [w9ab]) (by simp [w9ab]) rfl
    (by
      intro p hpm hne
      simp only [w9ab, List.mem_singleton] at hpm
      subst hpm
      exact absurd rfl hne)
    false

end Configurables
